import Mathlib

set_option maxHeartbeats 1000000

/-!
Verification development for the exa-ma harvest normalization layer.

The definitions below are a shallow embedding of the Python modules
`harvest/hal.py`, `harvest/partners.py`, `harvest/team.py` and
`harvest/software/fetcher.py`.  Loosely-typed spreadsheet / JSON cell values
are modelled by `PyAtom` / `PyVal` (`None`, NaN, bools, ints, integral
floats, strings, datetimes, and flat arrays of atoms, which is the shape the
HAL API delivers).  Each Python function is translated into a computable
Lean function of the same name (modulo casing).  String primitives
(`strip`, `lower`, comparison) are re-implemented over `List Char` so that
every definition reduces inside the kernel.
-/

/-! ## String primitives (Python `strip` / `lower` / `<` semantics) -/

/-- Python `str.strip()`: drop leading and trailing whitespace. -/
def strTrim (s : String) : String :=
  ⟨((s.data.dropWhile Char.isWhitespace).reverse.dropWhile Char.isWhitespace).reverse⟩

/-- Python `str.lower()` (ASCII case folding, which covers the data). -/
def strLower (s : String) : String := ⟨s.data.map Char.toLower⟩

/-- Code-point lexicographic `<` on character lists. -/
def charListLt : List Char → List Char → Bool
  | [], [] => false
  | [], _ :: _ => true
  | _ :: _, [] => false
  | a :: as, b :: bs =>
      if a < b then true else if b < a then false else charListLt as bs

/-- Python `<` on strings: code-point lexicographic comparison. -/
def strLt (a b : String) : Bool := charListLt a.data b.data

/-! ## Python value model -/

/-- Model of a primitive Python value as it appears in a record cell.
`pfloat m` models the float with integral value `m` (e.g. `1.0`); NaN is the
separate constructor `nan`. -/
inductive PyAtom where
  | none : PyAtom
  | nan : PyAtom
  | pbool (b : Bool) : PyAtom
  | pint (n : Int) : PyAtom
  | pfloat (m : Int) : PyAtom
  | pstr (s : String) : PyAtom
  | pdate (y mo d : Nat) : PyAtom
  deriving DecidableEq, Repr, Inhabited

/-- Model of a Python value in a raw record: an atom or a flat array of atoms
(the HAL API returns arrays of strings for some fields). -/
inductive PyVal where
  | atom (a : PyAtom) : PyVal
  | arr (xs : List PyAtom) : PyVal
  deriving DecidableEq, Repr, Inhabited

/-- Decimal digits of a natural number, fuel-driven so that it reduces in
the kernel (helper for `str()` of numbers). -/
def natDigitsAux : Nat → Nat → List Char
  | 0, _ => []
  | fuel + 1, n =>
      if n < 10 then [Char.ofNat (48 + n)]
      else natDigitsAux fuel (n / 10) ++ [Char.ofNat (48 + n % 10)]

/-- Decimal digits of a natural number. -/
def natDigits (n : Nat) : List Char := natDigitsAux (n + 1) n

/-- Python `str()` of an integer. -/
def intStr (n : Int) : String :=
  if n < 0 then ⟨'-' :: natDigits n.natAbs⟩ else ⟨natDigits n.natAbs⟩

/-- Python `str()` of an atom. -/
def atomStr : PyAtom → String
  | .none => "None"
  | .nan => "nan"
  | .pbool b => if b then "True" else "False"
  | .pint n => intStr n
  | .pfloat m => intStr m ++ ".0"
  | .pstr s => s
  | .pdate y mo d =>
      intStr y ++ "-" ++ (if mo < 10 then "0" else "") ++ intStr mo ++ "-" ++
      (if d < 10 then "0" else "") ++ intStr d ++ " 00:00:00"

/-- Python `repr()` of an atom (used by `str` of a list; string quoting is
modelled without escape sequences, which do not occur in the data). -/
def atomRepr : PyAtom → String
  | .pstr s => "'" ++ s ++ "'"
  | a => atomStr a

/-- Python `str()` of a value (a list prints as its repr). -/
def pyStr : PyVal → String
  | .atom a => atomStr a
  | .arr xs => "[" ++ String.intercalate ", " (xs.map atomRepr) ++ "]"

/-- Embedding of `_first_str` (hal.py): first element of a list, stringified;
`None` becomes the empty string. -/
def firstStr : PyVal → String
  | .arr [] => ""
  | .arr (x :: _) => atomStr x
  | .atom .none => ""
  | .atom a => atomStr a

/-- Python `int(str)` parsing restricted to optionally-signed digit strings
surrounded by whitespace, returning `none` on failure (the caller catches
`ValueError`). -/
def pyIntOfString (s : String) : Option Int :=
  let t := (strTrim s).data
  let neg : Bool := match t with | '-' :: _ => true | _ => false
  let core : List Char := match t with
    | '-' :: rest => rest
    | '+' :: rest => rest
    | rest => rest
  if core ≠ [] ∧ core.all Char.isDigit then
    let n : Int := core.foldl (fun acc c => acc * 10 + ((c.toNat - 48 : Nat) : Int)) 0
    some (if neg then -n else n)
  else Option.none

/-! ## hal.py — version resolution -/

/-- Model of a raw HAL publication record: the fields read by
`_score_publication_version` / `select_best_versions`, each `Option` marking
whether the key is present in the dict.  `versionsFound` models the
`_hal_versions_found_i` key attached to selected records. -/
structure Pub where
  halId_s : Option PyVal := Option.none
  uri_s : Option PyVal := Option.none
  docid : Option PyVal := Option.none
  version_i : Option PyVal := Option.none
  docType_s : Option PyVal := Option.none
  journalTitle_s : Option PyVal := Option.none
  conferenceTitle_s : Option PyVal := Option.none
  doiId_s : Option PyVal := Option.none
  producedDate_s : Option PyVal := Option.none
  versionsFound : Option PyVal := Option.none
  deriving DecidableEq, Repr, Inhabited

/-- Embedding of `pub.get(key, "")`. -/
def pubGet (f : Option PyVal) : PyVal := f.getD (.atom (.pstr ""))

/-- Grouping key of `select_best_versions`: `halId_s` (first-str, stripped),
falling back to `uri_s`, falling back to `str(docid)`. -/
def keyOf (p : Pub) : String :=
  let h := strTrim (firstStr (pubGet p.halId_s))
  if h ≠ "" then h else
    let u := strTrim (firstStr (pubGet p.uri_s))
    if u ≠ "" then u else strTrim (pyStr (pubGet p.docid))

/-- Embedding of the `version_i` coercion in `_score_publication_version`:
`int(version) if version is not None else 0`, with `TypeError`/`ValueError`
falling back to 0. -/
def versionInt (v : Option PyVal) : Int :=
  match v with
  | Option.none => 0
  | some (.atom .none) => 0
  | some (.atom .nan) => 0
  | some (.atom (.pbool b)) => if b then 1 else 0
  | some (.atom (.pint n)) => n
  | some (.atom (.pfloat m)) => m
  | some (.atom (.pstr s)) => (pyIntOfString s).getD 0
  | some (.atom (.pdate _ _ _)) => 0
  | some (.arr _) => 0

/-- Embedding of `_score_publication_version`: returns the scoring triple
(score, version number, produced date). -/
def scorePub (p : Pub) : Int × Int × String :=
  let code := strTrim (firstStr (pubGet p.docType_s))
  let journal := strTrim (firstStr (pubGet p.journalTitle_s))
  let conf := strTrim (firstStr (pubGet p.conferenceTitle_s))
  let doi := strTrim (firstStr (pubGet p.doiId_s))
  let s1 : Int := if code = "ART" ∨ journal ≠ "" ∨ doi ≠ "" then 30 else 0
  let s2 : Int := if doi ≠ "" then 10 else 0
  let s3 : Int := if code = "COMM" ∨ conf ≠ "" then 20 else 0
  let s4 : Int :=
    if code = "COUV" ∨ code = "OUV" ∨ code = "REPORT" ∨ code = "THESE" ∨ code = "HDR"
    then 15 else 0
  (s1 + s2 + s3 + s4, versionInt p.version_i, firstStr (pubGet p.producedDate_s))

/-- Python's `<` on the scoring triples: lexicographic on (Int, Int, String),
with code-point string comparison. -/
def tripleLt (a b : Int × Int × String) : Bool :=
  decide (a.1 < b.1) ||
    (a.1 == b.1 && (decide (a.2.1 < b.2.1) ||
      (a.2.1 == b.2.1 && strLt a.2.2 b.2.2)))

/-- Embedding of Python `max(pubs, key=_score_publication_version)`: the first
element attaining the maximal score triple (later elements replace the
current best only when strictly greater). -/
def maxByScore : List Pub → Pub
  | [] => default
  | x :: xs => xs.foldl (fun b y => if tripleLt (scorePub b) (scorePub y) then y else b) x

/-- First-occurrence deduplication of a key list (the insertion order of a
Python dict's keys). -/
def dedupFirst : List String → List String
  | [] => []
  | k :: ks => k :: (dedupFirst ks).filter (fun x => x ≠ k)

/-- Grouping of `select_best_versions`: records grouped by `keyOf`, keys in
first-occurrence order, each group holding its records in input order (the
dict `setdefault`/`append` pattern). -/
def groupByKey (l : List Pub) : List (String × List Pub) :=
  (dedupFirst (l.map keyOf)).map (fun k => (k, l.filter (fun q => keyOf q == k)))

/-- Embedding of `best_copy["_hal_versions_found_i"] = n`. -/
def withCount (p : Pub) (n : Nat) : Pub :=
  { p with versionsFound := some (.atom (.pint (n : Int))) }

/-- Sort key of the final `selected.sort(...)`: the produced-date string. -/
def pubDate (p : Pub) : String := firstStr (pubGet p.producedDate_s)

/-- Ordering of the final `selected.sort(key=..., reverse=True)`: descending
by date, i.e. a record precedes another when its date is not smaller. -/
def dateGe (a b : Pub) : Prop := strLt (pubDate a) (pubDate b) = false

instance : DecidableRel dateGe := fun _ _ => instDecidableEqBool _ _

/-- Stable sort by produced date, descending — the semantics of
`selected.sort(key=..., reverse=True)` (Python's sort is stable; a stable
insertion sort computes the same list). -/
def sortByDateDesc (l : List Pub) : List Pub := List.insertionSort dateGe l

/-- Embedding of `select_best_versions`: group by key, pick the best-scoring
record of each group (annotated with the group size), sort by date
descending. -/
def selectBestVersions (l : List Pub) : List Pub :=
  sortByDateDesc ((groupByKey l).map (fun g => withCount (maxByScore g.2) g.2.length))

/-! ## hal.py — publication type inference -/

/-- Result of `infer_publication_type` (hal.py): the four returned fields. -/
structure TypeInfo where
  publication_type : String
  publication_type_label : String
  hal_doc_type : String
  hal_doc_type_label : String
  deriving DecidableEq, Repr

/-- Embedding of `HAL_DOC_TYPE_TO_PUBLICATION_TYPE`. -/
def HAL_DOC_TYPE_TO_PUBLICATION_TYPE : List (String × String × String) :=
  [("ART", "journal-article", "Article in journal"),
   ("COMM", "conference-paper", "Conference paper"),
   ("COUV", "book-chapter", "Book chapter"),
   ("OUV", "book", "Book"),
   ("REPORT", "report", "Report"),
   ("THESE", "thesis", "Thesis"),
   ("HDR", "thesis", "HDR"),
   ("POSTER", "poster", "Poster"),
   ("PATENT", "patent", "Patent"),
   ("SOFTWARE", "software", "Software"),
   ("DATA", "dataset", "Dataset"),
   ("UNDEFINED", "preprint", "Preprint / unpublished"),
   ("OTHER", "other", "Other")]

/-- Embedding of `infer_publication_type`.  The keyword parameters default to
`""` in the source; truthiness of a string is non-emptiness. -/
def inferPublicationType (doc_type_code : String) (doc_type_label : String := "")
    (journal_title : String := "") (conference_title : String := "")
    (doi : String := "") : TypeInfo :=
  let code := strTrim doc_type_code
  let label := strTrim doc_type_label
  match HAL_DOC_TYPE_TO_PUBLICATION_TYPE.lookup code with
  | some (n, nl) =>
      let pr : String × String :=
        if n = "preprint" ∨ n = "other" then
          if journal_title ≠ "" ∨ doi ≠ "" then ("journal-article", "Article in journal")
          else if conference_title ≠ "" then ("conference-paper", "Conference paper")
          else (n, nl)
        else (n, nl)
      ⟨pr.1, pr.2, code, label⟩
  | Option.none =>
      let pr : String × String :=
        if journal_title ≠ "" ∨ doi ≠ "" then ("journal-article", "Article in journal")
        else if conference_title ≠ "" then ("conference-paper", "Conference paper")
        else ("other", "Other")
      ⟨pr.1, pr.2, code, label⟩

/-! ## partners.py — partner model and deduplication -/

/-- Embedding of `PartnerType`. -/
inductive PartnerType where
  | entreprise | epic | academic | publicResearch | largeScaleResearchInfra | other
  deriving DecidableEq, Repr, Inhabited

/-- Embedding of `CompanySize`. -/
inductive CompanySize where
  | large | midcap | sme | research | unknown
  deriving DecidableEq, Repr, Inhabited

/-- Embedding of `PartnerStatus`. -/
inductive PartnerStatus where
  | positiveResponse | workProgrammeDiscussed | initialEmailSent | notContacted | unknown
  deriving DecidableEq, Repr, Inhabited

/-- Embedding of `ExternalPartner` (the fields of the pydantic model). -/
structure ExternalPartner where
  name : String
  partner_type : PartnerType := .other
  partner_type_raw : Option String := Option.none
  departments : List String := []
  contact_partner : Option String := Option.none
  contact_exama : Option String := Option.none
  exama_partner : Option String := Option.none
  collaboration_types : List String := []
  status : PartnerStatus := .unknown
  status_raw : Option String := Option.none
  topics : List String := []
  comments : List String := []
  icon : Option String := Option.none
  company_size : CompanySize := .unknown
  deriving DecidableEq, Repr, Inhabited

/-- Embedding of `EXCLUDED_PARTNERS`. -/
def EXCLUDED_PARTNERS : List String := ["hidalgo2", "coe-hidalgo2"]

/-- Embedding of `INVALID_DEPARTMENTS`. -/
def INVALID_DEPARTMENTS : List String :=
  ["entreprise", "epic", "academic", "public research",
   "large scale research infrastructure", "other", "company", "organization"]

/-- Embedding of `is_valid_department` (the argument is an element of a
`list[str]`, so `not dept` is emptiness). -/
def isValidDepartment (dept : String) : Bool :=
  if dept = "" ∨ strTrim dept = "" then false
  else !(INVALID_DEPARTMENTS.contains (strTrim (strLower dept)))

/-- Sequential union used by the merge loops: append each new value that is
truthy and not already present (the department loop additionally checks
`is_valid_department`). -/
def mergeValues (valid : String → Bool) (ex new : List String) : List String :=
  new.foldl (fun acc v => if v ≠ "" ∧ v ∉ acc ∧ valid v then acc ++ [v] else acc) ex

/-- Merging one duplicate row into the canonical partner: the four list
fields are unioned, every other field is left untouched (the body of the
`else` branch of `PartnersCollection.deduplicate`). -/
def mergePartner (existing p : ExternalPartner) : ExternalPartner :=
  { existing with
    departments := mergeValues isValidDepartment existing.departments p.departments,
    collaboration_types :=
      mergeValues (fun _ => true) existing.collaboration_types p.collaboration_types,
    topics := mergeValues (fun _ => true) existing.topics p.topics,
    comments := mergeValues (fun _ => true) existing.comments p.comments }

/-- Merge a row into the entry holding its lower-cased name, in place. -/
def mergeAt (nl : String) (p : ExternalPartner) :
    List (String × ExternalPartner) → List (String × ExternalPartner)
  | [] => []
  | (k, q) :: rest =>
      if k = nl then (k, mergePartner q p) :: rest else (k, q) :: mergeAt nl p rest

/-- One iteration of the `deduplicate` loop over `self.partners`, on the
merged map (keyed by lower-cased name, insertion order preserved). -/
def dedupStep (acc : List (String × ExternalPartner)) (p : ExternalPartner) :
    List (String × ExternalPartner) :=
  let nl := strLower p.name
  if EXCLUDED_PARTNERS.contains nl then acc
  else if (acc.lookup nl).isSome then mergeAt nl p acc
  else acc ++ [(nl, p)]

/-- The merged map built by `PartnersCollection.deduplicate`. -/
def dedupPairs (l : List ExternalPartner) : List (String × ExternalPartner) :=
  l.foldl dedupStep []

/-- Embedding of `PartnersCollection.deduplicate`: the partner list of the
returned collection (`list(merged.values())`). -/
def deduplicatePartners (l : List ExternalPartner) : List ExternalPartner :=
  (dedupPairs l).map Prod.snd

/-- Post-state of the input partner list after `deduplicate` returns: the
canonical entry of each name is the very object stored in the merged dict,
so the first non-excluded occurrence of a name ends up holding the fully
merged value, and every other input object is untouched. -/
def dedupPostAux (final : List (String × ExternalPartner)) (seen : List String) :
    List ExternalPartner → List ExternalPartner
  | [] => []
  | p :: ps =>
      let nl := strLower p.name
      let p' := if EXCLUDED_PARTNERS.contains nl ∨ nl ∈ seen then p
                else (final.lookup nl).getD p
      p' :: dedupPostAux final (nl :: seen) ps

/-- Post-state of the input list of `PartnersCollection.deduplicate`. -/
def dedupPost (l : List ExternalPartner) : List ExternalPartner :=
  dedupPostAux (dedupPairs l) [] l

/-- The scalar (non-list) fields of a partner, which the merge never
touches. -/
def partnerScalars (p : ExternalPartner) :=
  (p.name, p.partner_type, p.partner_type_raw, p.contact_partner, p.contact_exama,
   p.exama_partner, p.status, p.status_raw, p.icon, p.company_size)

/-! ## Shared field-cleaner primitives (team.py / partners.py / fetcher.py) -/

/-- Embedding of `is_nan`: true for `None`, NaN floats, and blank strings. -/
def is_nan : PyVal → Bool
  | .atom .none => true
  | .atom .nan => true
  | .atom (.pstr s) => strTrim s = ""
  | _ => false

/-- Embedding of `clean_string`: `None` if blank, else trimmed string form. -/
def cleanString (v : PyVal) : Option String :=
  if is_nan v then Option.none else some (strTrim (pyStr v))

/-- A spreadsheet row: a dict keyed by column header.  `row.get(k)` of an
absent key yields Python `None`. -/
def Row := List (String × PyVal)

/-- Embedding of `row.get(key)`. -/
def rowGet (row : Row) (k : String) : PyVal := (List.lookup k row).getD (.atom .none)

/-! ## software/fetcher.py — parse_bool -/

/-- Embedding of `parse_bool` (software/fetcher.py): false for blank/NaN,
the boolean itself for bools, else membership of `str(value).lower().strip()`
in the token set. -/
def parseBool (v : PyVal) : Bool :=
  if is_nan v then false
  else match v with
  | .atom (.pbool b) => b
  | _ => ["true", "yes", "1", "x", "available"].contains (strTrim (strLower (pyStr v)))

/-! ## team.py — gender inference -/

/-- Embedding of `Gender`. -/
inductive Gender where
  | male | female | unknown
  deriving DecidableEq, Repr

/-- Embedding of `FEMALE_NAMES`. -/
def FEMALE_NAMES : List String :=
  ["alice", "amélie", "amelie", "anna", "anne", "béatrice", "beatrice", "camille",
   "caroline", "catherine", "céline", "celine", "charlotte", "chloé", "chloe",
   "claire", "clémence", "clemence", "daria", "delphine", "diane", "elise", "élise",
   "elisabeth", "émilie", "emilie", "emma", "florence", "françoise", "francoise",
   "gabrielle", "hélène", "helene", "isabelle", "jeanne", "julie", "juliette",
   "laure", "laurence", "léa", "lea", "lise", "louise", "lucie", "madeleine",
   "manon", "margot", "marguerite", "marie", "marine", "marion", "martine",
   "mathilde", "mélanie", "melanie", "nathalie", "nicole", "pauline", "sarah",
   "sophie", "stéphanie", "stephanie", "sylvie", "valérie", "valerie", "véronique",
   "veronique", "virginie", "zineb", "fatima", "leila", "nadia", "sofia", "maria",
   "elena", "olga", "anna", "natalia", "ekaterina", "alexandra", "victoria"]

/-- Embedding of `MALE_NAMES`. -/
def MALE_NAMES : List String :=
  ["adrien", "alexandre", "alexis", "alain", "antoine", "arnaud", "arthur",
   "benjamin", "benoit", "benoît", "bernard", "bertrand", "bruno", "charles",
   "christian", "christophe", "claude", "clément", "clement", "damien", "daniel",
   "david", "denis", "didier", "dominique", "édouard", "edouard", "emmanuel",
   "eric", "éric", "etienne", "étienne", "fabien", "fabrice", "florian",
   "franck", "françois", "francois", "frédéric", "frederic", "gabriel", "gaël",
   "gael", "georges", "gérard", "gerard", "guillaume", "guy", "henri", "hervé",
   "herve", "hugo", "jacques", "jean", "jérôme", "jerome", "jonathan", "joseph",
   "julien", "laurent", "lionel", "louis", "luc", "lucas", "ludovic", "marc",
   "marcel", "martin", "mathieu", "matthieu", "maurice", "maxime", "michel",
   "nicolas", "olivier", "pascal", "patrick", "paul", "philippe", "pierre",
   "quentin", "raphaël", "raphael", "raymond", "rémi", "remi", "renaud", "richard",
   "robert", "romain", "samuel", "sébastien", "sebastien", "serge", "simon",
   "stéphane", "stephane", "sylvain", "thierry", "thomas", "vincent", "xavier",
   "yann", "yannick", "yves", "hassan", "mohamed", "ahmed", "ali", "omar",
   "karim", "samir", "mahamat", "pape", "mahmoud", "christos", "lukas", "utpal",
   "hung", "dinh", "xinye", "amaury", "brieuc", "tom", "mikaël", "mikael"]

/-- Python `.split()`: split on whitespace runs, dropping empty pieces. -/
def pyWordsAux : List Char → List Char → List String
  | [], cur => if cur = [] then [] else [⟨cur.reverse⟩]
  | c :: t, cur =>
      if c.isWhitespace then
        (if cur = [] then pyWordsAux t [] else ⟨cur.reverse⟩ :: pyWordsAux t [])
      else pyWordsAux t (c :: cur)

/-- Python `.split()` on a string. -/
def pyWords (s : String) : List String := pyWordsAux s.data []

/-- Python `s.split("-")[0]`: the prefix before the first dash. -/
def upToDash (s : String) : String := ⟨s.data.takeWhile (fun c => c ≠ '-')⟩

/-- Embedding of `detect_gender`: lower-cased, first dash component, first
whitespace token, then lookup in the two name tables. -/
def detectGender (first_name : String) : Gender :=
  let name_lower := strTrim (strLower first_name)
  let first_part := (pyWords (upToDash name_lower)).headD ""
  if FEMALE_NAMES.contains first_part then .female
  else if MALE_NAMES.contains first_part then .male
  else .unknown

/-- Embedding of `TeamFetcher._parse_gender_from_column`: blank / absent
`Woman` cell gives male ("default assumption when not specified"); numeric
(or boolean) 1 gives female, 0 male; any other non-blank value unknown. -/
def parseGenderFromColumn (row : Row) : Gender :=
  let w := rowGet row "Woman"
  if is_nan w then .male
  else match w with
  | .atom (.pbool b) => if b then .female else .male
  | .atom (.pint n) => if n = 1 then .female else if n = 0 then .male else .unknown
  | .atom (.pfloat m) => if m = 1 then .female else if m = 0 then .male else .unknown
  | _ => .unknown

/-- Embedding of the identity and gender logic of `RecruitedPerson`: the
fields that determine the `gender` property.  The remaining model fields
(email, dates, position, ...) play no part in the gender claims and are
omitted; `gender_override` models the private `_gender_override`
attribute. -/
structure RecruitedPerson where
  first_name : String
  surname : String
  gender_override : Option Gender := Option.none
  deriving DecidableEq, Repr

/-- Embedding of the `RecruitedPerson.gender` property: the override when
set, otherwise first-name detection. -/
def personGender (p : RecruitedPerson) : Gender :=
  match p.gender_override with
  | some g => g
  | Option.none => detectGender p.first_name

/-- Embedding of the identity/gender part of `TeamFetcher._parse_row`: rows
without a first name or surname are dropped; the parsed person always
receives the column-parsed gender as override. -/
def parseRowPerson (row : Row) : Option RecruitedPerson :=
  match cleanString (rowGet row "First name"), cleanString (rowGet row "Surname") with
  | some fn, some sn =>
      if fn = "" ∨ sn = "" then Option.none
      else some { first_name := fn, surname := sn,
                  gender_override := some (parseGenderFromColumn row) }
  | _, _ => Option.none

/-! ## team.py — parse_date and its strptime model -/

/-- Result of a successful parse: the fields of a Python `datetime`. -/
structure PyDateTime where
  year : Nat
  month : Nat
  day : Nat
  hour : Nat := 0
  minute : Nat := 0
  second : Nat := 0
  deriving DecidableEq, Repr

/-- Accumulator of `strptime` fields, with Python's defaults
(year 1900, month 1, day 1, midnight). -/
structure TimeAcc where
  y : Nat := 1900
  mo : Nat := 1
  d : Nat := 1
  h : Nat := 0
  mi : Nat := 0
  s : Nat := 0
  deriving DecidableEq, Repr

/-- Numeric value of a digit character. -/
def digitVal (c : Char) : Nat := c.toNat - 48

/-- Full English month names recognized by `%B` (case-insensitive). -/
def MONTHS_FULL : List (String × Nat) :=
  [("january", 1), ("february", 2), ("march", 3), ("april", 4), ("may", 5),
   ("june", 6), ("july", 7), ("august", 8), ("september", 9), ("october", 10),
   ("november", 11), ("december", 12)]

/-- Abbreviated English month names recognized by `%b` (case-insensitive). -/
def MONTHS_ABBR : List (String × Nat) :=
  [("jan", 1), ("feb", 2), ("mar", 3), ("apr", 4), ("may", 5), ("jun", 6),
   ("jul", 7), ("aug", 8), ("sep", 9), ("oct", 10), ("nov", 11), ("dec", 12)]

/-- Match a month name case-insensitively at the head of the input. -/
def matchMonth : List (String × Nat) → List Char → Option (Nat × List Char)
  | [], _ => Option.none
  | (nm, v) :: rest, inp =>
      if nm.data.isPrefixOf (inp.map Char.toLower) then some (v, inp.drop nm.data.length)
      else matchMonth rest inp

/-- The `%d` directive: a two-digit day 01–31, else a single digit 1–9
(the regex alternation of CPython's `_strptime`). -/
def parseDay : List Char → Option (Nat × List Char)
  | c1 :: c2 :: rest =>
      if c1.isDigit ∧ c2.isDigit ∧ 1 ≤ 10 * digitVal c1 + digitVal c2 ∧
          10 * digitVal c1 + digitVal c2 ≤ 31 then
        some (10 * digitVal c1 + digitVal c2, rest)
      else if c1.isDigit ∧ 1 ≤ digitVal c1 then some (digitVal c1, c2 :: rest)
      else Option.none
  | [c1] => if c1.isDigit ∧ 1 ≤ digitVal c1 then some (digitVal c1, []) else Option.none
  | [] => Option.none

/-- The `%m` directive: a two-digit month 01–12, else a single digit 1–9. -/
def parseMonthNum : List Char → Option (Nat × List Char)
  | c1 :: c2 :: rest =>
      if c1.isDigit ∧ c2.isDigit ∧ 1 ≤ 10 * digitVal c1 + digitVal c2 ∧
          10 * digitVal c1 + digitVal c2 ≤ 12 then
        some (10 * digitVal c1 + digitVal c2, rest)
      else if c1.isDigit ∧ 1 ≤ digitVal c1 then some (digitVal c1, c2 :: rest)
      else Option.none
  | [c1] => if c1.isDigit ∧ 1 ≤ digitVal c1 then some (digitVal c1, []) else Option.none
  | [] => Option.none

/-- The `%Y` directive: exactly four digits. -/
def parseYear4 : List Char → Option (Nat × List Char)
  | c1 :: c2 :: c3 :: c4 :: rest =>
      if c1.isDigit ∧ c2.isDigit ∧ c3.isDigit ∧ c4.isDigit then
        some (1000 * digitVal c1 + 100 * digitVal c2 + 10 * digitVal c3 + digitVal c4, rest)
      else Option.none
  | _ => Option.none

/-- The `%H` directive: a two-digit hour 00–23, else a single digit. -/
def parseHour : List Char → Option (Nat × List Char)
  | c1 :: c2 :: rest =>
      if c1.isDigit ∧ c2.isDigit ∧ 10 * digitVal c1 + digitVal c2 ≤ 23 then
        some (10 * digitVal c1 + digitVal c2, rest)
      else if c1.isDigit then some (digitVal c1, c2 :: rest)
      else Option.none
  | [c1] => if c1.isDigit then some (digitVal c1, []) else Option.none
  | [] => Option.none

/-- The `%M` / `%S` directives: a two-digit value 00–59, else a single
digit. -/
def parseMinSec : List Char → Option (Nat × List Char)
  | c1 :: c2 :: rest =>
      if c1.isDigit ∧ c2.isDigit ∧ 10 * digitVal c1 + digitVal c2 ≤ 59 then
        some (10 * digitVal c1 + digitVal c2, rest)
      else if c1.isDigit then some (digitVal c1, c2 :: rest)
      else Option.none
  | [c1] => if c1.isDigit then some (digitVal c1, []) else Option.none
  | [] => Option.none

/-- Run a format string against the input (full match required, as
`datetime.strptime` rejects unconverted data).  Whitespace in the format
matches one or more whitespace characters; other literal characters match
themselves. -/
def runFmt : List Char → List Char → TimeAcc → Option TimeAcc
  | [], inp, acc => if inp = [] then some acc else Option.none
  | '%' :: 'Y' :: f, inp, acc =>
      match parseYear4 inp with
      | some (v, rest) => runFmt f rest { acc with y := v }
      | Option.none => Option.none
  | '%' :: 'm' :: f, inp, acc =>
      match parseMonthNum inp with
      | some (v, rest) => runFmt f rest { acc with mo := v }
      | Option.none => Option.none
  | '%' :: 'd' :: f, inp, acc =>
      match parseDay inp with
      | some (v, rest) => runFmt f rest { acc with d := v }
      | Option.none => Option.none
  | '%' :: 'H' :: f, inp, acc =>
      match parseHour inp with
      | some (v, rest) => runFmt f rest { acc with h := v }
      | Option.none => Option.none
  | '%' :: 'M' :: f, inp, acc =>
      match parseMinSec inp with
      | some (v, rest) => runFmt f rest { acc with mi := v }
      | Option.none => Option.none
  | '%' :: 'S' :: f, inp, acc =>
      match parseMinSec inp with
      | some (v, rest) => runFmt f rest { acc with s := v }
      | Option.none => Option.none
  | '%' :: 'B' :: f, inp, acc =>
      match matchMonth MONTHS_FULL inp with
      | some (v, rest) => runFmt f rest { acc with mo := v }
      | Option.none => Option.none
  | '%' :: 'b' :: f, inp, acc =>
      match matchMonth MONTHS_ABBR inp with
      | some (v, rest) => runFmt f rest { acc with mo := v }
      | Option.none => Option.none
  | '%' :: _ :: _, _, _ => Option.none
  | c :: f, inp, acc =>
      if c.isWhitespace then
        match inp with
        | i :: irest =>
            if i.isWhitespace then runFmt f (irest.dropWhile Char.isWhitespace) acc
            else Option.none
        | [] => Option.none
      else
        match inp with
        | i :: irest => if i = c then runFmt f irest acc else Option.none
        | [] => Option.none

/-- Gregorian leap year. -/
def isLeap (y : Nat) : Bool := (y % 4 = 0 ∧ y % 100 ≠ 0) ∨ y % 400 = 0

/-- Number of days of a month. -/
def daysInMonth (y mo : Nat) : Nat :=
  if mo = 2 then (if isLeap y then 29 else 28)
  else if mo = 4 ∨ mo = 6 ∨ mo = 9 ∨ mo = 11 then 30
  else 31

/-- Embedding of `datetime.strptime(inp, fmt)` for the formats used by
`parse_date`, including the date-validity check of the `datetime`
constructor (`ValueError` becomes `none`). -/
def strptime (inp fmt : String) : Option PyDateTime :=
  match runFmt fmt.data inp.data {} with
  | some acc =>
      if 1 ≤ acc.y ∧ acc.d ≤ daysInMonth acc.y acc.mo then
        some ⟨acc.y, acc.mo, acc.d, acc.h, acc.mi, acc.s⟩
      else Option.none
  | Option.none => Option.none

/-- Try each format in turn, returning the first success. -/
def tryFormats (s : String) : List String → Option PyDateTime
  | [] => Option.none
  | f :: fs =>
      match strptime s f with
      | some d => some d
      | Option.none => tryFormats s fs

/-- Whether `pat` occurs as a substring (Python `pat in s`). -/
def subOccurs (pat : List Char) : List Char → Bool
  | [] => pat.isEmpty
  | c :: t => pat.isPrefixOf (c :: t) || subOccurs pat t

/-- Python `str.replace`: left-to-right, non-overlapping, all occurrences
(fuel-driven so that it reduces; the fuel is the input length). -/
def replaceAux (pat rep : List Char) : Nat → List Char → List Char
  | 0, s => s
  | _ + 1, [] => []
  | fuel + 1, c :: t =>
      if pat.isPrefixOf (c :: t) ∧ pat ≠ [] then
        rep ++ replaceAux pat rep fuel ((c :: t).drop pat.length)
      else c :: replaceAux pat rep fuel t

/-- Python `s.replace(pat, rep)`. -/
def strReplace (s pat rep : String) : String :=
  ⟨replaceAux pat.data rep.data s.data.length s.data⟩

/-- Embedding of the `french_months` table, in source order. -/
def FRENCH_MONTHS : List (String × String) :=
  [("janvier", "January"), ("janv", "Jan"),
   ("février", "February"), ("févr", "Feb"), ("fevrier", "February"), ("fevr", "Feb"),
   ("mars", "March"),
   ("avril", "April"), ("avr", "Apr"),
   ("mai", "May"),
   ("juin", "June"),
   ("juillet", "July"), ("juil", "Jul"),
   ("août", "August"), ("aout", "August"), ("aoû", "Aug"),
   ("septembre", "September"), ("sept", "Sep"),
   ("octobre", "October"), ("oct", "Oct"),
   ("novembre", "November"), ("nov", "Nov"),
   ("décembre", "December"), ("déc", "Dec"), ("decembre", "December"), ("dec", "Dec")]

/-- The French-month fallback loop of `parse_date`: for each table entry
whose French name occurs in the lowered input, substitute and retry the
month-year formats. -/
def tryFrench (low : String) : List (String × String) → Option PyDateTime
  | [] => Option.none
  | (fr, en) :: rest =>
      if subOccurs fr.data low.data then
        match tryFormats (strReplace low fr en) ["%B %Y", "%b %Y"] with
        | some d => some d
        | Option.none => tryFrench low rest
      else tryFrench low rest

/-- Embedding of `parse_date` (team.py): blank values give `none`; datetime
values pass through; otherwise the formats are tried in source order — the
day/month/year formats on the first whitespace token, the month-year
formats on the whole string, then the French-substitution loop.  Every
failure path yields `none` (the `ValueError`s are caught). -/
def parseDate (v : PyVal) : Option PyDateTime :=
  if is_nan v then Option.none
  else match v with
  | .atom (.pdate y mo d) => some ⟨y, mo, d, 0, 0, 0⟩
  | _ =>
    let str_val := strTrim (pyStr v)
    let tok := (pyWords str_val).headD ""
    match tryFormats tok ["%Y-%m-%d %H:%M:%S", "%Y-%m-%d", "%d/%m/%Y", "%d-%m-%Y"] with
    | some d => some d
    | Option.none =>
      match tryFormats str_val ["%B %Y", "%b %Y"] with
      | some d => some d
      | Option.none => tryFrench (strLower str_val) FRENCH_MONTHS

/-! ## Concrete records used by the claim theorems -/

/-- Record 1 of the C7 example. -/
def c7r1 : Pub :=
  { halId_s := some (.atom (.pstr "X")), version_i := some (.atom (.pint 1)),
    docType_s := some (.atom (.pstr "UNDEFINED")) }

/-- Record 2 of the C7 example. -/
def c7r2 : Pub :=
  { halId_s := some (.atom (.pstr "X")), version_i := some (.atom (.pint 2)),
    docType_s := some (.atom (.pstr "ART")),
    journalTitle_s := some (.atom (.pstr "J")) }

/-- Partner row 1 for the C2 / C9 examples. -/
def acme1 : ExternalPartner :=
  { name := "Acme", departments := ["R&D"], contact_partner := some "Alice" }

/-- Partner row 2 for the C2 / C9 examples. -/
def acme2 : ExternalPartner :=
  { name := "ACME", departments := ["Sales"], contact_partner := some "Bob" }

/-- A raw record with every identity field absent (the blank-identity row of
C5). -/
def blankPub : Pub := {}

/-- A personnel row whose `Woman` column is absent and whose first name is in
the female name table. -/
def c4row : Row :=
  [("First name", .atom (.pstr "Marie")), ("Surname", .atom (.pstr "Curie"))]

/-- The same personnel row with the `Woman` column explicitly 1. -/
def c4rowW1 : Row :=
  [("First name", .atom (.pstr "Marie")), ("Surname", .atom (.pstr "Curie")),
   ("Woman", .atom (.pint 1))]

/-! ## Lemmas about the version resolver -/

theorem mem_dedupFirst {x : String} : ∀ {l : List String}, x ∈ dedupFirst l ↔ x ∈ l := by
  intro l
  induction l with
  | nil => simp [dedupFirst]
  | cons k ks ih =>
      simp only [dedupFirst, List.mem_cons, List.mem_filter, decide_eq_true_eq, ih]
      constructor
      · rintro (rfl | ⟨h, _⟩)
        · exact Or.inl rfl
        · exact Or.inr h
      · rintro (rfl | h)
        · exact Or.inl rfl
        · by_cases hx : x = k
          · exact Or.inl hx
          · exact Or.inr ⟨h, hx⟩

theorem nodup_dedupFirst : ∀ l : List String, (dedupFirst l).Nodup := by
  intro l
  induction l with
  | nil => simp [dedupFirst]
  | cons k ks ih =>
      refine List.nodup_cons.mpr ⟨?_, ih.filter _⟩
      intro hk
      exact absurd rfl (of_decide_eq_true (List.mem_filter.mp hk).2)

theorem length_dedupFirst (l : List String) : (dedupFirst l).length = l.dedup.length := by
  have h1 : (dedupFirst l).toFinset = l.toFinset := by
    ext x
    simp [List.mem_toFinset, mem_dedupFirst]
  have h2 := List.card_toFinset (dedupFirst l)
  have h3 := List.card_toFinset l
  rw [(nodup_dedupFirst l).dedup] at h2
  rw [h1, h3] at h2
  exact h2.symm

theorem dedupFirst_eq_self {l : List String} (h : l.Nodup) : dedupFirst l = l := by
  induction l with
  | nil => rfl
  | cons k ks ih =>
      have hk : k ∉ ks := (List.nodup_cons.mp h).1
      rw [dedupFirst, ih (List.nodup_cons.mp h).2]
      congr 1
      refine List.filter_eq_self.mpr (fun x hx => ?_)
      exact decide_eq_true (fun he => hk (he ▸ hx))

theorem maxByScore_mem : ∀ (x : Pub) (xs : List Pub), maxByScore (x :: xs) ∈ x :: xs := by
  intro x xs
  have key : ∀ (ys : List Pub) (b : Pub),
      (ys.foldl (fun b y => if tripleLt (scorePub b) (scorePub y) then y else b) b) = b ∨
      (ys.foldl (fun b y => if tripleLt (scorePub b) (scorePub y) then y else b) b) ∈ ys := by
    intro ys
    induction ys with
    | nil => intro b; exact Or.inl rfl
    | cons y t ih =>
        intro b
        rw [List.foldl_cons]
        rcases ih (if tripleLt (scorePub b) (scorePub y) then y else b) with h | h
        · rw [h]
          by_cases hc : tripleLt (scorePub b) (scorePub y)
          · simp only [hc, if_true]
            exact Or.inr (List.mem_cons_self _ _)
          · simp only [hc, if_false]
            exact Or.inl rfl
        · exact Or.inr (List.mem_cons_of_mem _ h)
  rcases key xs x with h | h
  · rw [maxByScore, h]; exact List.mem_cons_self _ _
  · exact List.mem_cons_of_mem _ (by rw [maxByScore]; exact h)

theorem keyOf_withCount (p : Pub) (n : Nat) : keyOf (withCount p n) = keyOf p := rfl

theorem pubDate_withCount (p : Pub) (n : Nat) : pubDate (withCount p n) = pubDate p := rfl

theorem withCount_withCount (p : Pub) (m n : Nat) :
    withCount (withCount p m) n = withCount p n := rfl

theorem sortByDateDesc_perm (l : List Pub) : List.Perm (sortByDateDesc l) l :=
  List.perm_insertionSort dateGe l

theorem charListLt_asymm : ∀ x y : List Char,
    charListLt x y = true → charListLt y x = false := by
  intro x
  induction x with
  | nil =>
      intro y h
      cases y with
      | nil => exact Bool.noConfusion h
      | cons b bs => rfl
  | cons a as ih =>
      intro y h
      cases y with
      | nil => exact Bool.noConfusion h
      | cons b bs =>
          simp only [charListLt] at h ⊢
          by_cases hab : a < b
          · rw [if_pos hab] at h
            have hba : ¬ b < a := lt_asymm hab
            rw [if_neg hba, if_pos hab]
          · rw [if_neg hab] at h
            by_cases hba : b < a
            · rw [if_pos hba] at h
              exact Bool.noConfusion h
            · rw [if_neg hba] at h
              rw [if_neg hba, if_neg hab]
              exact ih bs h

theorem charListLt_false_trans : ∀ x y z : List Char,
    charListLt x y = false → charListLt y z = false → charListLt x z = false := by
  intro x
  induction x with
  | nil =>
      intro y z h1 h2
      cases y with
      | nil =>
          cases z with
          | nil => rfl
          | cons c cs => exact h2
      | cons b bs => exact Bool.noConfusion h1
  | cons a as ih =>
      intro y z h1 h2
      cases z with
      | nil => rfl
      | cons c cs =>
          cases y with
          | nil => exact Bool.noConfusion h2
          | cons b bs =>
              simp only [charListLt] at h1 h2 ⊢
              by_cases hab : a < b
              · rw [if_pos hab] at h1
                exact Bool.noConfusion h1
              · rw [if_neg hab] at h1
                by_cases hbc : b < c
                · rw [if_pos hbc] at h2
                  exact Bool.noConfusion h2
                · rw [if_neg hbc] at h2
                  have hba : b ≤ a := le_of_not_lt hab
                  have hcb : c ≤ b := le_of_not_lt hbc
                  have hac : ¬ a < c := not_lt_of_ge (le_trans hcb hba)
                  rw [if_neg hac]
                  by_cases hca : c < a
                  · rw [if_pos hca]
                  · rw [if_neg hca]
                    have hae : a = c := le_antisymm (le_of_not_lt hca) (le_trans hcb hba)
                    have hab2 : a = b := le_antisymm (hae ▸ hcb) hba
                    have hbc2 : b = c := hab2 ▸ hae
                    by_cases hba2 : b < a
                    · exact absurd (hab2 ▸ hba2) (lt_irrefl _)
                    · rw [if_neg hba2] at h1
                      by_cases hcb2 : c < b
                      · exact absurd (hbc2 ▸ hcb2) (lt_irrefl _)
                      · rw [if_neg hcb2] at h2
                        exact ih bs cs h1 h2

instance : IsTotal Pub dateGe :=
  ⟨fun a b => by
    by_cases h : strLt (pubDate a) (pubDate b) = true
    · exact Or.inr (charListLt_asymm _ _ h)
    · exact Or.inl (by rwa [Bool.not_eq_true] at h)⟩

instance : IsTrans Pub dateGe :=
  ⟨fun _ _ _ h1 h2 => charListLt_false_trans _ _ _ h1 h2⟩

theorem sortByDateDesc_sorted (l : List Pub) : List.Sorted dateGe (sortByDateDesc l) :=
  List.sorted_insertionSort dateGe l

theorem sortByDateDesc_eq_self {l : List Pub} (h : List.Sorted dateGe l) :
    sortByDateDesc l = l :=
  List.Sorted.insertionSort_eq h

theorem keyOf_maxByScore_filter (l : List Pub) (k : String)
    (h : ∃ p ∈ l, keyOf p = k) :
    keyOf (maxByScore (l.filter (fun q => keyOf q == k))) = k := by
  obtain ⟨p, hp, hpk⟩ := h
  have hmem : p ∈ l.filter (fun q => keyOf q == k) :=
    List.mem_filter.mpr ⟨hp, by simp [hpk]⟩
  obtain ⟨x, xs, hxx⟩ := List.exists_cons_of_ne_nil (List.ne_nil_of_mem hmem)
  have hmax : maxByScore (l.filter (fun q => keyOf q == k)) ∈
      l.filter (fun q => keyOf q == k) := by
    rw [hxx]; exact maxByScore_mem x xs
  exact of_decide_eq_true (List.mem_filter.mp hmax).2

theorem groupByKey_keys (l : List Pub) :
    (groupByKey l).map Prod.fst = dedupFirst (l.map keyOf) := by
  rw [groupByKey, List.map_map]
  exact List.map_id _

/-- The annotated list before the final sort. -/
def annotated (l : List Pub) : List Pub :=
  (groupByKey l).map (fun g => withCount (maxByScore g.2) g.2.length)

theorem selectBestVersions_eq_sort_annotated (l : List Pub) :
    selectBestVersions l = sortByDateDesc (annotated l) := rfl

theorem annotated_eq_map_keys (l : List Pub) :
    annotated l = (dedupFirst (l.map keyOf)).map
      (fun k => withCount (maxByScore (l.filter (fun q => keyOf q == k)))
        (l.filter (fun q => keyOf q == k)).length) := by
  rw [annotated, groupByKey, List.map_map]
  rfl

theorem exists_of_mem_map_keyOf {l : List Pub} {k : String} (hk : k ∈ l.map keyOf) :
    ∃ p ∈ l, keyOf p = k := by
  obtain ⟨p, hp, hpk⟩ := List.mem_map.mp hk
  exact ⟨p, hp, hpk⟩

theorem keyOf_annotated_elem {l : List Pub} {k : String} (hk : k ∈ l.map keyOf) :
    keyOf (withCount (maxByScore (l.filter (fun q => keyOf q == k)))
      (l.filter (fun q => keyOf q == k)).length) = k := by
  rw [keyOf_withCount]
  exact keyOf_maxByScore_filter l k (exists_of_mem_map_keyOf hk)

theorem map_keyOf_annotated (l : List Pub) :
    (annotated l).map keyOf = dedupFirst (l.map keyOf) := by
  rw [annotated_eq_map_keys, List.map_map]
  have h : ∀ k ∈ dedupFirst (l.map keyOf),
      (keyOf ∘ fun k => withCount (maxByScore (l.filter (fun q => keyOf q == k)))
        (l.filter (fun q => keyOf q == k)).length) k = id k := by
    intro k hk
    exact keyOf_annotated_elem (mem_dedupFirst.mp hk)
  rw [List.map_congr_left h, List.map_id]

theorem length_selectBestVersions (l : List Pub) :
    (selectBestVersions l).length = ((l.map keyOf).dedup).length := by
  rw [selectBestVersions_eq_sort_annotated, (sortByDateDesc_perm _).length_eq,
    ← length_dedupFirst]
  have := congrArg List.length (map_keyOf_annotated l)
  simpa using this

theorem countP_eq_one_of_nodup {l : List String} {k : String}
    (hn : l.Nodup) (hk : k ∈ l) : l.countP (fun x => x == k) = 1 := by
  induction l with
  | nil => cases hk
  | cons a as ih =>
      rw [List.countP_cons]
      rcases List.mem_cons.mp hk with rfl | hk2
      · have h0 : as.countP (fun x => x == k) = 0 := by
          refine List.countP_eq_zero.mpr (fun x hx => ?_)
          simp only [beq_iff_eq]
          intro he
          exact (List.nodup_cons.mp hn).1 (he ▸ hx)
        simp [h0]
      · have hak : ¬ (a = k) := by
          intro he
          exact (List.nodup_cons.mp hn).1 (he ▸ hk2)
        rw [ih (List.nodup_cons.mp hn).2 hk2]
        simp [hak]

theorem countP_selectBestVersions {l : List Pub} {k : String}
    (hk : k ∈ l.map keyOf) :
    (selectBestVersions l).countP (fun r => keyOf r == k) = 1 := by
  rw [selectBestVersions_eq_sort_annotated, (sortByDateDesc_perm _).countP_eq,
    annotated_eq_map_keys, List.countP_map]
  have h : ∀ x ∈ dedupFirst (l.map keyOf),
      (((fun r => keyOf r == k) ∘ fun k' =>
        withCount (maxByScore (l.filter (fun q => keyOf q == k')))
          (l.filter (fun q => keyOf q == k')).length) x = true) ↔
        ((fun x => x == k) x = true) := by
    intro x hx
    simp only [Function.comp]
    rw [keyOf_annotated_elem (mem_dedupFirst.mp hx)]
  rw [List.countP_congr h]
  exact countP_eq_one_of_nodup (nodup_dedupFirst _) (mem_dedupFirst.mpr hk)

theorem survivor_mem_selectBestVersions {l : List Pub} {k : String}
    (hk : k ∈ l.map keyOf) :
    withCount (maxByScore (l.filter (fun q => keyOf q == k)))
      (l.filter (fun q => keyOf q == k)).length ∈ selectBestVersions l := by
  rw [selectBestVersions_eq_sort_annotated, (sortByDateDesc_perm _).mem_iff,
    annotated_eq_map_keys]
  exact List.mem_map_of_mem _ (mem_dedupFirst.mpr hk)

theorem maxByScore_filter_mem {l : List Pub} {k : String}
    (hk : k ∈ l.map keyOf) :
    maxByScore (l.filter (fun q => keyOf q == k)) ∈ l.filter (fun q => keyOf q == k) := by
  obtain ⟨p, hp, hpk⟩ := exists_of_mem_map_keyOf hk
  have hmem : p ∈ l.filter (fun q => keyOf q == k) :=
    List.mem_filter.mpr ⟨hp, by simp [hpk]⟩
  obtain ⟨x, xs, hxx⟩ := List.exists_cons_of_ne_nil (List.ne_nil_of_mem hmem)
  rw [hxx]
  exact maxByScore_mem x xs

theorem filter_eq_single {l : List Pub} (hn : (l.map keyOf).Nodup) {p : Pub}
    (hp : p ∈ l) : l.filter (fun q => keyOf q == keyOf p) = [p] := by
  induction l with
  | nil => cases hp
  | cons a as ih =>
      have hn2 : (as.map keyOf).Nodup := (List.nodup_cons.mp hn).2
      have hka : keyOf a ∉ as.map keyOf := (List.nodup_cons.mp hn).1
      rcases List.mem_cons.mp hp with rfl | hp2
      · rw [List.filter_cons]
        simp only [beq_self_eq_true, if_true]
        have h0 : as.filter (fun q => keyOf q == keyOf p) = [] := by
          refine List.filter_eq_nil_iff.mpr (fun q hq => ?_)
          simp only [beq_iff_eq]
          intro he
          exact hka (he ▸ List.mem_map_of_mem keyOf hq)
        rw [h0]
      · have hne : ¬ (keyOf a == keyOf p) = true := by
          simp only [beq_iff_eq]
          intro he
          exact hka (he ▸ List.mem_map_of_mem keyOf hp2)
        rw [List.filter_cons]
        simp only [hne, if_false]
        exact ih hn2 hp2

theorem annotated_of_nodup {l : List Pub} (hn : (l.map keyOf).Nodup) :
    annotated l = l.map (fun p => withCount p 1) := by
  rw [annotated_eq_map_keys, dedupFirst_eq_self hn, List.map_map]
  refine List.map_congr_left (fun p hp => ?_)
  simp only [Function.comp]
  rw [filter_eq_single hn hp]
  rfl

theorem selectBestVersions_of_nodup {l : List Pub} (hn : (l.map keyOf).Nodup) :
    selectBestVersions l = sortByDateDesc (l.map (fun p => withCount p 1)) := by
  rw [selectBestVersions_eq_sort_annotated, annotated_of_nodup hn]

theorem map_keyOf_select_nodup (l : List Pub) :
    ((selectBestVersions l).map keyOf).Nodup := by
  have hperm : List.Perm ((selectBestVersions l).map keyOf) ((annotated l).map keyOf) :=
    ((sortByDateDesc_perm (annotated l)).map keyOf)
  rw [hperm.nodup_iff, map_keyOf_annotated]
  exact nodup_dedupFirst _

theorem sorted_map_withCount {l : List Pub} (h : List.Sorted dateGe l) :
    List.Sorted dateGe (l.map (fun r => withCount r 1)) := by
  refine List.Pairwise.map _ (fun a b hab => ?_) h
  rw [dateGe, pubDate_withCount, pubDate_withCount]
  exact hab

theorem selectBestVersions_second_run (B : List Pub) :
    selectBestVersions (selectBestVersions B) =
      (selectBestVersions B).map (fun r => withCount r 1) := by
  rw [selectBestVersions_of_nodup (map_keyOf_select_nodup B)]
  refine sortByDateDesc_eq_self (sorted_map_withCount ?_)
  rw [selectBestVersions_eq_sort_annotated]
  exact sortByDateDesc_sorted _

theorem selectBestVersions_idem_of_nodup {B : List Pub}
    (hn : (B.map keyOf).Nodup) :
    selectBestVersions (selectBestVersions B) = selectBestVersions B := by
  rw [selectBestVersions_second_run]
  have hmem : ∀ r ∈ selectBestVersions B, withCount r 1 = r := by
    intro r hr
    rw [selectBestVersions_of_nodup hn, (sortByDateDesc_perm _).mem_iff] at hr
    obtain ⟨p, _, rfl⟩ := List.mem_map.mp hr
    exact withCount_withCount p 1 1
  rw [List.map_congr_left hmem]
  exact List.map_id _

/-! ## Lemmas about the partner merger -/

theorem lookup_cons_pair (k a : String) (b : ExternalPartner)
    (t : List (String × ExternalPartner)) :
    List.lookup k ((a, b) :: t) = if k == a then some b else List.lookup k t := by
  by_cases h : (k == a) = true
  · simp [List.lookup, h]
  · rw [Bool.not_eq_true] at h
    simp [List.lookup, h]

theorem lookup_append_pair (k : String) (l1 l2 : List (String × ExternalPartner)) :
    List.lookup k (l1 ++ l2) =
      (match List.lookup k l1 with
       | some v => some v
       | Option.none => List.lookup k l2) := by
  induction l1 with
  | nil => simp [List.lookup]
  | cons e t ih =>
      obtain ⟨a, b⟩ := e
      rw [List.cons_append, lookup_cons_pair, lookup_cons_pair]
      by_cases h : (k == a) = true
      · simp [h]
      · rw [Bool.not_eq_true] at h
        simp [h, ih]

theorem lookup_isSome_iff_keys (k : String) (l : List (String × ExternalPartner)) :
    (List.lookup k l).isSome = true ↔ k ∈ l.map Prod.fst := by
  induction l with
  | nil => simp [List.lookup]
  | cons e t ih =>
      obtain ⟨a, b⟩ := e
      rw [lookup_cons_pair]
      by_cases h : (k == a) = true
      · rw [if_pos h]
        simp [beq_iff_eq.mp h]
      · rw [if_neg h]
        simp only [List.map_cons, List.mem_cons, ih]
        constructor
        · exact Or.inr
        · rintro (rfl | hm)
          · exact absurd (beq_self_eq_true k) h
          · exact hm

theorem mergeAt_keys (nl : String) (p : ExternalPartner) :
    ∀ acc : List (String × ExternalPartner),
      (mergeAt nl p acc).map Prod.fst = acc.map Prod.fst := by
  intro acc
  induction acc with
  | nil => rfl
  | cons e t ih =>
      obtain ⟨a, q⟩ := e
      rw [mergeAt]
      by_cases h : a = nl
      · simp [h]
      · simp [h, ih]

theorem lookup_mergeAt_ne {k nl : String} (hne : k ≠ nl) (p : ExternalPartner)
    (acc : List (String × ExternalPartner)) :
    List.lookup k (mergeAt nl p acc) = List.lookup k acc := by
  induction acc with
  | nil => rfl
  | cons e t ih =>
      obtain ⟨a, q⟩ := e
      rw [mergeAt]
      by_cases h : a = nl
      · subst h
        rw [if_pos rfl, lookup_cons_pair, lookup_cons_pair]
        have : (k == a) = false := beq_eq_false_iff_ne.mpr hne
        simp [this]
      · rw [if_neg h, lookup_cons_pair, lookup_cons_pair]
        by_cases hk : (k == a) = true
        · simp [hk]
        · rw [Bool.not_eq_true] at hk
          simp [hk, ih]

theorem lookup_isSome_mergeAt (k nl : String) (p : ExternalPartner)
    (acc : List (String × ExternalPartner)) :
    (List.lookup k (mergeAt nl p acc)).isSome = (List.lookup k acc).isSome := by
  by_cases h : (List.lookup k (mergeAt nl p acc)).isSome = true
  · have h2 := (lookup_isSome_iff_keys k _).mp h
    rw [mergeAt_keys] at h2
    rw [h, ((lookup_isSome_iff_keys k acc).mpr h2)]
  · rw [Bool.not_eq_true] at h
    rw [h]
    by_cases h3 : (List.lookup k acc).isSome = true
    · exfalso
      have h4 := (lookup_isSome_iff_keys k acc).mp h3
      rw [← mergeAt_keys nl p acc] at h4
      have := (lookup_isSome_iff_keys k _).mpr h4
      rw [h] at this
      cases this
    · rw [Bool.not_eq_true] at h3
      rw [h3]

theorem mem_mergeAt {e : String × ExternalPartner} {nl : String} {p : ExternalPartner} :
    ∀ {acc : List (String × ExternalPartner)}, e ∈ mergeAt nl p acc →
      e ∈ acc ∨ ∃ q, (nl, q) ∈ acc ∧ e = (nl, mergePartner q p) := by
  intro acc
  induction acc with
  | nil => intro h; cases h
  | cons f t ih =>
      obtain ⟨a, q⟩ := f
      rw [mergeAt]
      by_cases h : a = nl
      · subst h
        rw [if_pos rfl]
        intro hm
        rcases List.mem_cons.mp hm with rfl | hm2
        · exact Or.inr ⟨q, List.mem_cons_self _ _, rfl⟩
        · exact Or.inl (List.mem_cons_of_mem _ hm2)
      · rw [if_neg h]
        intro hm
        rcases List.mem_cons.mp hm with rfl | hm2
        · exact Or.inl (List.mem_cons_self _ _)
        · rcases ih hm2 with h3 | ⟨q', hq', rfl⟩
          · exact Or.inl (List.mem_cons_of_mem _ h3)
          · exact Or.inr ⟨q', List.mem_cons_of_mem _ hq', rfl⟩

theorem partnerScalars_mergePartner (q p : ExternalPartner) :
    partnerScalars (mergePartner q p) = partnerScalars q := rfl

theorem name_mergePartner (q p : ExternalPartner) :
    (mergePartner q p).name = q.name := rfl

theorem find?_append_partner (f : ExternalPartner → Bool) (l1 l2 : List ExternalPartner) :
    List.find? f (l1 ++ l2) =
      (match List.find? f l1 with
       | some x => some x
       | Option.none => List.find? f l2) := by
  induction l1 with
  | nil => simp
  | cons x t ih =>
      rw [List.cons_append, List.find?_cons, List.find?_cons]
      by_cases h : f x = true
      · simp [h]
      · rw [Bool.not_eq_true] at h
        simp [h, ih]

/-- Invariant of the `deduplicate` loop: every entry of the merged map is
keyed by the lower-cased name of its partner, carries the scalar fields of
the first processed row with that key, and every processed non-excluded row
has an entry. -/
def GoodAcc (processed : List ExternalPartner)
    (acc : List (String × ExternalPartner)) : Prop :=
  (∀ e ∈ acc, strLower e.2.name = e.1 ∧
    ∃ p, List.find? (fun x => strLower x.name == e.1) processed = some p ∧
      partnerScalars e.2 = partnerScalars p) ∧
  (∀ x ∈ processed, ¬ (EXCLUDED_PARTNERS.contains (strLower x.name) = true) →
    (List.lookup (strLower x.name) acc).isSome = true)

theorem GoodAcc_step {pr : List ExternalPartner} {acc : List (String × ExternalPartner)}
    {p : ExternalPartner} (h : GoodAcc pr acc) : GoodAcc (pr ++ [p]) (dedupStep acc p) := by
  obtain ⟨h1, h2⟩ := h
  have hfindext : ∀ (k : String) (p₀ : ExternalPartner),
      List.find? (fun x => strLower x.name == k) pr = some p₀ →
      List.find? (fun x => strLower x.name == k) (pr ++ [p]) = some p₀ := by
    intro k p₀ hf
    rw [find?_append_partner, hf]
  by_cases hex : EXCLUDED_PARTNERS.contains (strLower p.name) = true
  · rw [dedupStep, if_pos hex]
    refine ⟨fun e he => ?_, fun x hx hnex => ?_⟩
    · obtain ⟨hname, p₀, hfind, hscal⟩ := h1 e he
      exact ⟨hname, p₀, hfindext _ _ hfind, hscal⟩
    · rcases List.mem_append.mp hx with hx2 | hx2
      · exact h2 x hx2 hnex
      · rw [List.mem_singleton.mp hx2] at hnex
        exact absurd hex hnex
  · by_cases hsome : (List.lookup (strLower p.name) acc).isSome = true
    · rw [dedupStep, if_neg hex, if_pos hsome]
      refine ⟨fun e he => ?_, fun x hx hnex => ?_⟩
      · rcases mem_mergeAt he with he2 | ⟨q, hq, rfl⟩
        · obtain ⟨hname, p₀, hfind, hscal⟩ := h1 e he2
          exact ⟨hname, p₀, hfindext _ _ hfind, hscal⟩
        · obtain ⟨hname, p₀, hfind, hscal⟩ := h1 (strLower p.name, q) hq
          refine ⟨hname, p₀, hfindext _ _ hfind, ?_⟩
          rw [partnerScalars_mergePartner]
          exact hscal
      · rcases List.mem_append.mp hx with hx2 | hx2
        · rw [lookup_isSome_mergeAt]
          exact h2 x hx2 hnex
        · have hxp := List.mem_singleton.mp hx2
          subst hxp
          rw [lookup_isSome_mergeAt]
          exact hsome
    · rw [dedupStep, if_neg hex, if_neg hsome]
      have hnone : List.lookup (strLower p.name) acc = Option.none := by
        cases hcase : List.lookup (strLower p.name) acc with
        | none => rfl
        | some v =>
            rw [hcase] at hsome
            simp at hsome
      have hfindpr : List.find? (fun x => strLower x.name == strLower p.name) pr
          = Option.none := by
        refine List.find?_eq_none.mpr (fun x hx => ?_)
        simp only [beq_iff_eq]
        intro he
        have hs := h2 x hx (by rw [he]; exact hex)
        rw [he, hnone] at hs
        cases hs
      refine ⟨fun e he => ?_, fun x hx hnex => ?_⟩
      · rcases List.mem_append.mp he with he2 | he2
        · obtain ⟨hname, p₀, hfind, hscal⟩ := h1 e he2
          exact ⟨hname, p₀, hfindext _ _ hfind, hscal⟩
        · rw [List.mem_singleton.mp he2]
          refine ⟨rfl, p, ?_, rfl⟩
          rw [find?_append_partner, hfindpr]
          simp [List.find?]
      · rcases List.mem_append.mp hx with hx2 | hx2
        · have hs := h2 x hx2 hnex
          rw [Option.isSome_iff_exists] at hs
          obtain ⟨v, hv⟩ := hs
          rw [lookup_append_pair, hv]
          rfl
        · have hxp := List.mem_singleton.mp hx2
          subst hxp
          rw [lookup_append_pair, hnone, lookup_cons_pair]
          simp

theorem GoodAcc_foldl : ∀ (l pr : List ExternalPartner)
    (acc : List (String × ExternalPartner)), GoodAcc pr acc →
    GoodAcc (pr ++ l) (List.foldl dedupStep acc l) := by
  intro l
  induction l with
  | nil => intro pr acc h; simpa using h
  | cons p t ih =>
      intro pr acc h
      have h2 := ih (pr ++ [p]) (dedupStep acc p) (GoodAcc_step h)
      rw [List.append_assoc] at h2
      simpa using h2

theorem GoodAcc_dedupPairs (l : List ExternalPartner) : GoodAcc l (dedupPairs l) := by
  have h0 : GoodAcc [] [] := ⟨fun e he => absurd he (List.not_mem_nil e), fun x hx => absurd hx (List.not_mem_nil x)⟩
  have := GoodAcc_foldl l [] [] h0
  simpa [dedupPairs] using this

theorem scalars_first_seen {l : List ExternalPartner} {r : ExternalPartner}
    (hr : r ∈ deduplicatePartners l) :
    ∃ p, List.find? (fun x => strLower x.name == strLower r.name) l = some p ∧
      partnerScalars r = partnerScalars p := by
  obtain ⟨e, he, rfl⟩ := List.mem_map.mp hr
  obtain ⟨hname, p₀, hfind, hscal⟩ := (GoodAcc_dedupPairs l).1 e he
  rw [hname]
  exact ⟨p₀, hfind, hscal⟩

theorem foldl_lookup_of_no_key {k : String} :
    ∀ (qs : List ExternalPartner) (acc : List (String × ExternalPartner)),
      (∀ q ∈ qs, strLower q.name ≠ k) →
      List.lookup k (List.foldl dedupStep acc qs) = List.lookup k acc := by
  intro qs
  induction qs with
  | nil => intro acc _; rfl
  | cons q t ih =>
      intro acc hk
      have hkq : strLower q.name ≠ k := hk q (List.mem_cons_self _ _)
      have hstep : List.lookup k (dedupStep acc q) = List.lookup k acc := by
        rw [dedupStep]
        by_cases hex : EXCLUDED_PARTNERS.contains (strLower q.name) = true
        · rw [if_pos hex]
        · rw [if_neg hex]
          by_cases hsome : (List.lookup (strLower q.name) acc).isSome = true
          · rw [if_pos hsome]
            exact lookup_mergeAt_ne (fun he => hkq he.symm) q acc
          · rw [if_neg hsome, lookup_append_pair]
            cases hcase : List.lookup k acc with
            | some v => rfl
            | none =>
                rw [lookup_cons_pair]
                have : (k == strLower q.name) = false :=
                  beq_eq_false_iff_ne.mpr (fun he => hkq he.symm)
                simp [this]
      rw [List.foldl_cons, ih (dedupStep acc q) (fun x hx => hk x (List.mem_cons_of_mem _ hx)), hstep]

theorem dedupPairs_lookup_first :
    ∀ (l : List ExternalPartner) (acc : List (String × ExternalPartner)),
      l.Pairwise (fun a b => strLower a.name ≠ strLower b.name) →
      (∀ q ∈ l, List.lookup (strLower q.name) acc = Option.none) →
      ∀ p ∈ l, ¬ (EXCLUDED_PARTNERS.contains (strLower p.name) = true) →
        List.lookup (strLower p.name) (List.foldl dedupStep acc l) = some p := by
  intro l
  induction l with
  | nil => intro acc _ _ p hp; cases hp
  | cons q t ih =>
      intro acc hpw hacc p hp hnex
      have haccq : List.lookup (strLower q.name) acc = Option.none :=
        hacc q (List.mem_cons_self _ _)
      rcases List.mem_cons.mp hp with rfl | hp2
      · rw [List.foldl_cons, dedupStep, if_neg hnex]
        have hsome : ¬ ((List.lookup (strLower p.name) acc).isSome = true) := by
          rw [haccq]
          simp
        rw [if_neg hsome]
        have hlk : List.lookup (strLower p.name) (acc ++ [(strLower p.name, p)]) = some p := by
          rw [lookup_append_pair, haccq, lookup_cons_pair]
          simp
        rw [foldl_lookup_of_no_key t _
          (fun x hx he => (List.pairwise_cons.mp hpw).1 x hx he.symm), hlk]
      · rw [List.foldl_cons]
        refine ih (dedupStep acc q) (List.pairwise_cons.mp hpw).2 ?_ p hp2 hnex
        intro x hx
        have hne : strLower x.name ≠ strLower q.name :=
          fun he => (List.pairwise_cons.mp hpw).1 x hx he.symm
        rw [dedupStep]
        by_cases hex : EXCLUDED_PARTNERS.contains (strLower q.name) = true
        · rw [if_pos hex]
          exact hacc x (List.mem_cons_of_mem _ hx)
        · rw [if_neg hex]
          by_cases hsome : (List.lookup (strLower q.name) acc).isSome = true
          · rw [haccq] at hsome
            simp at hsome
          · rw [if_neg hsome, lookup_append_pair, hacc x (List.mem_cons_of_mem _ hx),
              lookup_cons_pair]
            have : (strLower x.name == strLower q.name) = false :=
              beq_eq_false_iff_ne.mpr hne
            simp [this]

theorem dedupPostAux_eq (final : List (String × ExternalPartner)) :
    ∀ (l : List ExternalPartner) (seen : List String),
      (∀ p ∈ l, ¬ (EXCLUDED_PARTNERS.contains (strLower p.name) = true) →
        strLower p.name ∉ seen → List.lookup (strLower p.name) final = some p) →
      dedupPostAux final seen l = l := by
  intro l
  induction l with
  | nil => intro seen _; rfl
  | cons p t ih =>
      intro seen h
      rw [dedupPostAux]
      have hhead : (if EXCLUDED_PARTNERS.contains (strLower p.name) = true ∨
          strLower p.name ∈ seen then p
          else (List.lookup (strLower p.name) final).getD p) = p := by
        by_cases hc : EXCLUDED_PARTNERS.contains (strLower p.name) = true ∨
            strLower p.name ∈ seen
        · rw [if_pos hc]
        · rw [if_neg hc]
          push_neg at hc
          rw [h p (List.mem_cons_self _ _) hc.1 hc.2]
          rfl
      rw [hhead, ih (strLower p.name :: seen) ?_]
      intro x hx hnex hseen
      exact h x (List.mem_cons_of_mem _ hx) hnex (fun hmem => hseen (List.mem_cons_of_mem _ hmem))

theorem dedupPost_eq_self {l : List ExternalPartner}
    (hpw : l.Pairwise (fun a b => strLower a.name ≠ strLower b.name)) :
    dedupPost l = l := by
  rw [dedupPost]
  refine dedupPostAux_eq _ l [] (fun p hp hnex _ => ?_)
  exact dedupPairs_lookup_first l [] hpw (fun q _ => rfl) p hp hnex

theorem dedup_pair_merge (a b : ExternalPartner)
    (ha : strLower a.name = "acme") (hb : strLower b.name = "acme") :
    deduplicatePartners [a, b] = [mergePartner a b] := by
  have hex : ¬ (EXCLUDED_PARTNERS.contains "acme" = true) := by decide
  have hstep1 : dedupStep [] a = [("acme", a)] := by
    rw [dedupStep, ha, if_neg hex]
    rw [if_neg (by simp [List.lookup])]
    rfl
  have hlk : (List.lookup "acme" [("acme", a)]).isSome = true := by
    rw [lookup_cons_pair]
    simp
  have hstep2 : dedupStep [("acme", a)] b = [("acme", mergePartner a b)] := by
    rw [dedupStep, hb, if_neg hex, if_pos hlk, mergeAt, if_pos rfl]
  rw [deduplicatePartners, dedupPairs, List.foldl_cons, List.foldl_cons, List.foldl_nil,
    hstep1, hstep2]
  rfl

theorem mergePartner_departments (a b : ExternalPartner)
    (hda : a.departments = ["R&D"]) (hdb : b.departments = ["Sales"]) :
    (mergePartner a b).departments = ["R&D", "Sales"] := by
  have h : (mergePartner a b).departments =
      mergeValues isValidDepartment a.departments b.departments := rfl
  rw [h, hda, hdb]
  decide

/-! ## Lemmas about gender parsing -/

theorem parseRowPerson_override {row : Row} {p : RecruitedPerson}
    (h : parseRowPerson row = some p) :
    p.gender_override = some (parseGenderFromColumn row) := by
  cases h1 : cleanString (rowGet row "First name") with
  | none => rw [parseRowPerson] at h; rw [h1] at h; exact Option.noConfusion h
  | some fn =>
      cases h2 : cleanString (rowGet row "Surname") with
      | none =>
          rw [parseRowPerson] at h; rw [h1, h2] at h; exact Option.noConfusion h
      | some sn =>
          simp only [parseRowPerson, h1, h2] at h
          by_cases hif : fn = "" ∨ sn = ""
          · rw [if_pos hif] at h; cases h
          · rw [if_neg hif] at h
            cases h
            rfl

theorem personGender_of_override {p : RecruitedPerson} {g : Gender}
    (h : p.gender_override = some g) : personGender p = g := by
  rw [personGender, h]

theorem parseRowPerson_gender {row : Row} {p : RecruitedPerson}
    (h : parseRowPerson row = some p) :
    personGender p = parseGenderFromColumn row :=
  personGender_of_override (parseRowPerson_override h)

theorem parseGenderFromColumn_blank {row : Row}
    (h : is_nan (rowGet row "Woman") = true) :
    parseGenderFromColumn row = Gender.male := by
  rw [parseGenderFromColumn, if_pos h]

theorem parseGenderFromColumn_one {row : Row}
    (h : rowGet row "Woman" = .atom (.pint 1)) :
    parseGenderFromColumn row = Gender.female := by
  rw [parseGenderFromColumn, h]
  rfl

theorem parseGenderFromColumn_zero {row : Row}
    (h : rowGet row "Woman" = .atom (.pint 0)) :
    parseGenderFromColumn row = Gender.male := by
  rw [parseGenderFromColumn, h]
  rfl

/-! ## A characterization of parse_bool -/

theorem parseBool_iff_aux {v : PyVal} (hnan : is_nan v = false)
    (hnb : ∀ b, v ≠ .atom (.pbool b))
    (hv : parseBool v =
      ["true", "yes", "1", "x", "available"].contains (strTrim (strLower (pyStr v)))) :
    parseBool v = true ↔
      (v = .atom (.pbool true) ∨
        (is_nan v = false ∧ (∀ b, v ≠ .atom (.pbool b)) ∧
          strTrim (strLower (pyStr v)) ∈ ["true", "yes", "1", "x", "available"])) := by
  rw [hv]
  constructor
  · intro h
    exact Or.inr ⟨hnan, hnb, List.elem_iff.mp h⟩
  · rintro (h | ⟨_, _, h⟩)
    · exact absurd h (hnb true)
    · exact List.elem_iff.mpr h

theorem parseBool_iff (v : PyVal) : parseBool v = true ↔
    (v = .atom (.pbool true) ∨
      (is_nan v = false ∧ (∀ b, v ≠ .atom (.pbool b)) ∧
        strTrim (strLower (pyStr v)) ∈ ["true", "yes", "1", "x", "available"])) := by
  cases v with
  | atom a =>
      cases a with
      | none =>
          constructor
          · intro h; cases h
          · rintro (h | ⟨h2, _, _⟩)
            · cases h
            · cases h2
      | nan =>
          constructor
          · intro h; cases h
          · rintro (h | ⟨h2, _, _⟩)
            · cases h
            · cases h2
      | pbool b =>
          cases b with
          | true =>
              constructor
              · intro _; exact Or.inl rfl
              · intro _; rfl
          | false =>
              constructor
              · intro h; cases h
              · rintro (h | ⟨_, h2, _⟩)
                · cases h
                · exact absurd rfl (h2 false)
      | pint n => exact parseBool_iff_aux rfl (fun b h => by cases h) rfl
      | pfloat m => exact parseBool_iff_aux rfl (fun b h => by cases h) rfl
      | pstr s =>
          by_cases hb : strTrim s = ""
          · have hnan : is_nan (PyVal.atom (PyAtom.pstr s)) = true := by
              simp [is_nan, hb]
            have hpb : parseBool (PyVal.atom (PyAtom.pstr s)) = false := by
              rw [parseBool, if_pos hnan]
              intro b h
              simp at h
            rw [hpb]
            constructor
            · intro h; cases h
            · rintro (h | ⟨h2, _, _⟩)
              · cases h
              · rw [hnan] at h2; cases h2
          · have hnan : is_nan (PyVal.atom (PyAtom.pstr s)) = false := by
              simp [is_nan, hb]
            refine parseBool_iff_aux hnan (fun b h => by cases h) ?_
            rw [parseBool, if_neg (by rw [hnan]; simp)]
            intro b h
            simp at h
      | pdate y mo d => exact parseBool_iff_aux rfl (fun b h => by cases h) rfl
  | arr xs => exact parseBool_iff_aux rfl (fun b h => by cases h) rfl

/-! ## Claim theorems -/

/-- Claim C1: for every batch, `select_best_versions` returns exactly one
record per distinct identifier occurring in the batch (identifier =
`halId_s`, falling back to `uri_s`, falling back to `docid`), and for each
identifier the surviving output record is an annotated copy of one of the
batch records carrying it. -/
theorem claim_C1_group_invariant (B : List Pub) :
    (selectBestVersions B).length = ((B.map keyOf).dedup).length ∧
    ∀ k, k ∈ B.map keyOf →
      (selectBestVersions B).countP (fun r => keyOf r == k) = 1 ∧
      ∃ p ∈ B, keyOf p = k ∧
        withCount p ((B.filter (fun q => keyOf q == k)).length) ∈ selectBestVersions B := by
  refine ⟨length_selectBestVersions B, fun k hk => ⟨countP_selectBestVersions hk, ?_⟩⟩
  have hmem := maxByScore_filter_mem hk
  have hmf := List.mem_filter.mp hmem
  exact ⟨maxByScore (B.filter (fun q => keyOf q == k)), hmf.1,
    of_decide_eq_true hmf.2, survivor_mem_selectBestVersions hk⟩

/-- Witness for C1: the group invariant evaluated on the concrete two-record
batch sharing identifier "X". -/
theorem claim_C1_witness :
    (selectBestVersions [c7r1, c7r2]).countP (fun r => keyOf r == "X") = 1 ∧
    ∃ p ∈ [c7r1, c7r2], keyOf p = "X" ∧
      withCount p (([c7r1, c7r2].filter (fun q => keyOf q == "X")).length) ∈
        selectBestVersions [c7r1, c7r2] :=
  (claim_C1_group_invariant [c7r1, c7r2]).2 "X" (by decide)

/-- Counterexample to C3 as stated: resolving the already-resolved two-record
batch does not return the same list — the collapsed-revisions count is reset
from 2 to 1 by the second application. -/
theorem claim_C3_counterexample :
    selectBestVersions (selectBestVersions [c7r1, c7r2]) ≠
      selectBestVersions [c7r1, c7r2] := by decide

/-- Claim C3 (amended): applying `select_best_versions` to its own output
preserves the records and their order but resets every record's
`_hal_versions_found_i` to 1; consequently the resolver is idempotent
exactly on batches whose identifiers are pairwise distinct. -/
theorem claim_C3_amended :
    (∀ B : List Pub, selectBestVersions (selectBestVersions B) =
      (selectBestVersions B).map (fun r => withCount r 1)) ∧
    (∀ B : List Pub, (B.map keyOf).Nodup →
      selectBestVersions (selectBestVersions B) = selectBestVersions B) :=
  ⟨selectBestVersions_second_run, fun _ hn => selectBestVersions_idem_of_nodup hn⟩

/-- Witness for C3 (amended): idempotence on a concrete batch with distinct
identifiers. -/
theorem claim_C3_witness :
    selectBestVersions (selectBestVersions [c7r2]) = selectBestVersions [c7r2] :=
  claim_C3_amended.2 [c7r2] (by decide)

/-- Counterexample to C5 as stated: a record whose identity fields are all
blank is not excluded — it survives (annotated) under the empty identifier,
so the output of the one-record blank batch has length 1, not 0. -/
theorem claim_C5_counterexample :
    selectBestVersions [blankPub] = [withCount blankPub 1] ∧
    (selectBestVersions [blankPub]).length ≠ 0 := by decide

/-- Claim C5 (amended): blank-identity records are grouped under the empty
identifier like any other key, and exactly one record with the empty
identifier survives whenever the batch contains at least one. -/
theorem claim_C5_amended (B : List Pub) (h : ∃ p ∈ B, keyOf p = "") :
    (selectBestVersions B).countP (fun r => keyOf r == "") = 1 := by
  obtain ⟨p, hp, hk⟩ := h
  exact countP_selectBestVersions (hk ▸ List.mem_map_of_mem keyOf hp)

/-- Witness for C5 (amended): one blank record in, one empty-identifier
record out. -/
theorem claim_C5_witness :
    (selectBestVersions [blankPub]).countP (fun r => keyOf r == "") = 1 :=
  claim_C5_amended [blankPub] ⟨blankPub, by decide, by decide⟩

/-- Claim C7: on the batch of a rev-1 UNDEFINED record and a rev-2 ART record
with a journal, both with identifier X, the resolver returns only the second
record, annotated with `_hal_versions_found_i` equal to 2. -/
theorem claim_C7_best_version_example :
    selectBestVersions [c7r1, c7r2] = [withCount c7r2 2] ∧
    (withCount c7r2 2).versionsFound = some (.atom (.pint 2)) := by decide

/-- Claim C8: the two spec examples evaluate as required, and in general a
code mapping to a weak type (preprint/other) is promoted to journal-article
when a journal title or DOI is present (checked first), otherwise to
conference-paper when a conference title is present. -/
theorem claim_C8_weak_type_promotion :
    ((inferPublicationType "UNDEFINED" "" "" "" "10.1/x").publication_type =
      "journal-article") ∧
    ((inferPublicationType "UNDEFINED" "" "" "C" "").publication_type =
      "conference-paper") ∧
    (∀ code label journal conf doi n nl,
      HAL_DOC_TYPE_TO_PUBLICATION_TYPE.lookup (strTrim code) = some (n, nl) →
      (n = "preprint" ∨ n = "other") →
      ((journal ≠ "" ∨ doi ≠ "") →
        (inferPublicationType code label journal conf doi).publication_type =
          "journal-article") ∧
      (journal = "" → doi = "" → conf ≠ "" →
        (inferPublicationType code label journal conf doi).publication_type =
          "conference-paper")) := by
  refine ⟨by decide, by decide, ?_⟩
  intro code label journal conf doi n nl hlk hweak
  constructor
  · intro hjd
    simp only [inferPublicationType, hlk, if_pos hweak, if_pos hjd]
  · intro hj hd hc
    have hjd : ¬ (journal ≠ "" ∨ doi ≠ "") := by simp [hj, hd]
    simp only [inferPublicationType, hlk, if_pos hweak, if_neg hjd, if_pos hc]

/-- Witness for C8: the general promotion rule applied at concrete inputs for
both the journal and the conference branch. -/
theorem claim_C8_witness :
    ((inferPublicationType "UNDEFINED" "" "J" "" "").publication_type =
      "journal-article") ∧
    ((inferPublicationType "OTHER" "" "" "C" "").publication_type =
      "conference-paper") := by
  constructor
  · exact (claim_C8_weak_type_promotion.2.2 "UNDEFINED" "" "J" "" ""
      "preprint" "Preprint / unpublished" (by decide) (Or.inl rfl)).1 (Or.inl (by decide))
  · exact (claim_C8_weak_type_promotion.2.2 "OTHER" "" "" "C" ""
      "other" "Other" (by decide) (Or.inr rfl)).2 rfl rfl (by decide)

/-- Claim C2: merging the "Acme"/"ACME" rows with departments [R&D]/[Sales]
yields one canonical partner whose department list is [R&D, Sales] and whose
scalar fields — `contact_partner` included — are those of the first row; in
general every deduplicated partner carries the scalar fields of the first
input row with its case-insensitive name. -/
theorem claim_C2_partner_merge :
    (∀ a b : ExternalPartner, a.name = "Acme" → b.name = "ACME" →
      a.departments = ["R&D"] → b.departments = ["Sales"] →
      ∃ r, deduplicatePartners [a, b] = [r] ∧ r.departments = ["R&D", "Sales"] ∧
        r.contact_partner = a.contact_partner ∧ partnerScalars r = partnerScalars a) ∧
    (∀ (l : List ExternalPartner) (r : ExternalPartner), r ∈ deduplicatePartners l →
      ∃ p, List.find? (fun x => strLower x.name == strLower r.name) l = some p ∧
        partnerScalars r = partnerScalars p) := by
  constructor
  · intro a b ha hb hda hdb
    have ha2 : strLower a.name = "acme" := by rw [ha]; decide
    have hb2 : strLower b.name = "acme" := by rw [hb]; decide
    exact ⟨mergePartner a b, dedup_pair_merge a b ha2 hb2,
      mergePartner_departments a b hda hdb, rfl, rfl⟩
  · intro l r hr
    exact scalars_first_seen hr

/-- Witness for C2: the merge evaluated on the two concrete Acme rows. -/
theorem claim_C2_witness :
    ∃ r, deduplicatePartners [acme1, acme2] = [r] ∧ r.departments = ["R&D", "Sales"] ∧
      r.contact_partner = acme1.contact_partner ∧
      partnerScalars r = partnerScalars acme1 :=
  claim_C2_partner_merge.1 acme1 acme2 rfl rfl rfl rfl

/-- Counterexample to C9 as stated: on the Acme/ACME batch the input
collection is mutated — the first row's object, stored in the merged dict,
receives the second row's department in place. -/
theorem claim_C9_counterexample :
    dedupPost [acme1, acme2] ≠ [acme1, acme2] := by decide

/-- Claim C9 (amended): `deduplicate` leaves the input collection unchanged
whenever no two rows share a case-insensitive name; with duplicates present
it mutates the list-valued fields of first-seen rows in place. -/
theorem claim_C9_amended (l : List ExternalPartner)
    (h : l.Pairwise (fun a b => strLower a.name ≠ strLower b.name)) :
    dedupPost l = l :=
  dedupPost_eq_self h

/-- Witness for C9 (amended): a duplicate-free singleton batch is left
unchanged. -/
theorem claim_C9_witness : dedupPost [acme1] = [acme1] :=
  claim_C9_amended [acme1] (by simp)

/-- Counterexample to C4 as stated: a row with a blank Woman column and first
name "Marie" is parsed with gender male, although the first-name table
infers female — the fallback to name inference never happens. -/
theorem claim_C4_counterexample :
    (parseRowPerson c4row).map personGender = some Gender.male ∧
    detectGender "Marie" = Gender.female := by decide

/-- Claim C4 (amended): `_parse_row` always installs the column-parsed gender
as override — blank or absent Woman column gives male (the code's default
assumption), 1 gives female, 0 gives male — and the first-name lookup of the
`gender` property is used only when no override is set, which `_parse_row`
never leaves. -/
theorem claim_C4_amended :
    (∀ (row : Row) (p : RecruitedPerson), parseRowPerson row = some p →
      personGender p = parseGenderFromColumn row) ∧
    (∀ row : Row, is_nan (rowGet row "Woman") = true →
      parseGenderFromColumn row = Gender.male) ∧
    (∀ row : Row, rowGet row "Woman" = .atom (.pint 1) →
      parseGenderFromColumn row = Gender.female) ∧
    (∀ row : Row, rowGet row "Woman" = .atom (.pint 0) →
      parseGenderFromColumn row = Gender.male) ∧
    (∀ p : RecruitedPerson, p.gender_override = Option.none →
      personGender p = detectGender p.first_name) :=
  ⟨fun _ _ h => parseRowPerson_gender h,
   fun _ h => parseGenderFromColumn_blank h,
   fun _ h => parseGenderFromColumn_one h,
   fun _ h => parseGenderFromColumn_zero h,
   fun _ h => by rw [personGender, h]⟩

/-- Witness for C4 (amended): the blank-column row parses to male and the
explicit Woman=1 row to female. -/
theorem claim_C4_witness :
    personGender { first_name := "Marie"
                   surname := "Curie"
                   gender_override := some (parseGenderFromColumn c4row) } =
      parseGenderFromColumn c4row ∧
    parseGenderFromColumn c4rowW1 = Gender.female := by
  constructor
  · exact claim_C4_amended.1 c4row _ (by decide)
  · exact claim_C4_amended.2.2.1 c4rowW1 (by decide)

/-- Counterexample to C6 as stated: the French day-month-year input
"15 mars 2024" does not resolve to the same date as "15/03/2024" — the
French path only substitutes month names into the Month-Year formats, so
the day-prefixed string fails every format and yields null. -/
theorem claim_C6_counterexample :
    parseDate (.atom (.pstr "15 mars 2024")) ≠
      parseDate (.atom (.pstr "15/03/2024")) := by decide

/-- Claim C6 (amended): "15/03/2024" parses to 2024-03-15 while
"15 mars 2024" yields null (day-prefixed French dates are unsupported); the
French support is limited to Month-Year inputs, where "mars 2024" and
"01/03/2024" resolve to the same calendar date; unparseable input such as
"not a date" yields null rather than raising. -/
theorem claim_C6_amended :
    parseDate (.atom (.pstr "15 mars 2024")) = Option.none ∧
    parseDate (.atom (.pstr "15/03/2024")) = some ⟨2024, 3, 15, 0, 0, 0⟩ ∧
    parseDate (.atom (.pstr "mars 2024")) = some ⟨2024, 3, 1, 0, 0, 0⟩ ∧
    parseDate (.atom (.pstr "01/03/2024")) = some ⟨2024, 3, 1, 0, 0, 0⟩ ∧
    parseDate (.atom (.pstr "not a date")) = Option.none := by decide

/-- Counterexample to C10 as stated: numeric 1 delivered as the float 1.0
parses as false — `str(1.0)` is "1.0", which is not in the token set. -/
theorem claim_C10_counterexample : parseBool (.atom (.pfloat 1)) = false := by decide

/-- Claim C10 (amended): `parse_bool` is true exactly for boolean true and
for values whose Python string form, lower-cased and trimmed, is one of the
five tokens — which covers the integer 1 via "1" but not the float 1.0,
whose string form is "1.0"; blank and NaN values are false. -/
theorem claim_C10_amended :
    parseBool (.atom (.pfloat 1)) = false ∧ parseBool (.atom (.pint 1)) = true ∧
    ∀ v : PyVal, parseBool v = true ↔
      (v = .atom (.pbool true) ∨
        (is_nan v = false ∧ (∀ b, v ≠ .atom (.pbool b)) ∧
          strTrim (strLower (pyStr v)) ∈ ["true", "yes", "1", "x", "available"])) :=
  ⟨by decide, by decide, parseBool_iff⟩
